import Mathlib

/-!
Verification of the gencodec tool (`src/main.rs`): a parser for Scala
`case class` declarations and a generator for circe-style companion objects.

The embedding works on `List Char`.  The three regexes of the source
(`main_regex`, `field_regex`, `type_regex`) are modelled by executable
functions that implement the Rust `regex` crate's leftmost-first search and
greedy-quantifier semantics specialised to these three patterns (see the
comments at each definition).  `heck::SnakeCase` (heck 0.3) is modelled by
`heckLoop`, a direct transcription of heck 0.3.1's `transform` loop.
-/

namespace Gencodec

abbrev Str := List Char

/-- `\w` (restricted to ASCII, which covers every input the claims use). -/
def isWordChar (c : Char) : Bool := c.isAlphanum || c = '_'

/-- Rust `input.replace("\n", "")`. -/
def removeNewlines (s : Str) : Str := s.filter (fun c => c ≠ '\n')

/-- Rust `str::split(sep)`: every separator occurrence splits, empty pieces
are kept, the result is never empty. -/
def splitOnAux (sep : Char) : Str → Str → List Str
  | [], acc => [acc.reverse]
  | c :: cs, acc =>
    if c = sep then acc.reverse :: splitOnAux sep cs []
    else splitOnAux sep cs (c :: acc)

def splitOn (sep : Char) (s : Str) : List Str := splitOnAux sep s []

/-- Does `pat` start the list `s`? -/
def leadsWith : Str → Str → Bool
  | [], _ => true
  | _ :: _, [] => false
  | a :: as, b :: bs => a = b && leadsWith as bs

/-- Does the exact character sequence `pat` occur anywhere inside `s`? -/
def containsSeq (pat : Str) (s : Str) : Bool :=
  s.tails.any (fun t => leadsWith pat t)

/-- Split at the last occurrence of `c`: `s = before ++ c :: after` with no
`c` in `after`. -/
def lastSplit (c : Char) : Str → Option (Str × Str)
  | [] => none
  | x :: xs =>
    match lastSplit c xs with
    | some (b, a) => some (x :: b, a)
    | none => if x = c then some ([], xs) else none

/-- All decompositions `s = b ++ [c] ++ a`, shortest `b` first. -/
def splitsAtChar (c : Char) : Str → List (Str × Str)
  | [] => []
  | x :: xs =>
    (if x = c then [(([] : Str), xs)] else []) ++
      (splitsAtChar c xs).map (fun p => (x :: p.1, p.2))

/-- `type_regex = ^[+-]?(?P<type>\w+)`: optionally skip a single leading
variance marker, then take the leading run of word characters, which must be
non-empty.  (If the leading `+`/`-` is consumed but no word character
follows, backtracking to the empty option also fails, since `+`/`-` are not
word characters.) -/
def typeMatch (s : Str) : Option Str :=
  let rest := match s with
    | c :: cs => if c = '+' ∨ c = '-' then cs else s
    | [] => s
  let w := rest.takeWhile isWordChar
  if w.isEmpty then none else some w

/-- `field_regex = ^\s*(?P<field>\w+):`: skip leading whitespace, take a
non-empty run of word characters, require a colon immediately after.
(Maximal munch is safe for both `\s*` and `\w+` here, since a word character
is not whitespace and a colon is not a word character.) -/
def fieldMatch (s : Str) : Option Str :=
  let rest := s.dropWhile Char.isWhitespace
  let w := rest.takeWhile isWordChar
  if w.isEmpty then none
  else match rest.drop w.length with
    | ':' :: _ => some w
    | _ => none

/-- The literal `case\ class\ ` at the head of `main_regex`. -/
def litCC : Str := ("case class ").toList

/-- `\((?P<fields>.+)\)` at the start of `s`: the greedy `.+` makes the
capture run to the last `)` of the haystack, and it must be non-empty. -/
def parenPart (s : Str) : Option Str :=
  match s with
  | '(' :: rest =>
    match lastSplit ')' rest with
    | some (f, _) => if f.isEmpty then none else some f
    | none => none
  | _ => none

/-- `\[(?P<types>.+)\]\((?P<fields>.+)\)` at the start of `s`: the greedy
`.+` inside the brackets prefers the rightmost `]` for which the rest of the
pattern still matches immediately after it. -/
def bracketPart (s : Str) : Option (Str × Str) :=
  match s with
  | '[' :: rest =>
    ((splitsAtChar ']' rest).reverse).findSome? (fun bp =>
      if bp.1.isEmpty then none
      else (parenPart bp.2).map (fun f => (bp.1, f)))
  | _ => none

/-- Attempt of `main_regex` anchored at the start of `t`: the literal
`case class `, a non-empty greedy `\w+` class name, then the optional
bracket group followed by the paren group.  When the text after the name
starts with `[` but the bracket branch fails, skipping the optional group
also fails (the next char is `[`, not `(`), which `parenPart`'s head check
reproduces. -/
def matchFrom (t : Str) : Option (Str × Option Str × Str) :=
  if leadsWith litCC t then
    let t1 := t.drop litCC.length
    let name := t1.takeWhile isWordChar
    if name.isEmpty then none
    else
      let t2 := t1.drop name.length
      match bracketPart t2 with
      | some (ty, f) => some (name, some ty, f)
      | none =>
        match parenPart t2 with
        | some f => some (name, none, f)
        | none => none
  else none

/-- Unanchored leftmost search of `main_regex`: try every start position
from the left. -/
def mainMatch : Str → Option (Str × Option Str × Str)
  | [] => none
  | c :: rest =>
    match matchFrom (c :: rest) with
    | some r => some r
    | none => mainMatch rest

/-- Rust `iterator.map(f).collect::<Result<Vec<_>, _>>()`: first error wins. -/
def mapCollect (f : Str → Except String Str) : List Str → Except String (List Str)
  | [] => Except.ok []
  | x :: xs =>
    match f x with
    | Except.error e => Except.error e
    | Except.ok y =>
      match mapCollect f xs with
      | Except.error e => Except.error e
      | Except.ok ys => Except.ok (y :: ys)

structure CaseClass where
  name : Str
  type_params : List Str
  fields : List Str
deriving Repr, DecidableEq

/-- One type-parameter piece (the closure inside the `type_params` map). -/
def typePiece (piece : Str) : Except String Str :=
  match typeMatch piece with
  | some ty => Except.ok ty
  | none => Except.error ("Could not get capture groups for type params")

/-- One field piece (the closure inside the `field_names` map). -/
def fieldPiece (piece : Str) : Except String Str :=
  match fieldMatch piece with
  | some fn => Except.ok fn
  | none => Except.error ("Could not get capture groups for field name")

/-- The type-parameter stage: `captures.name("types").map(...).unwrap_or(Ok(vec![]))`. -/
def parseTypes (ot : Option Str) : Except String (List Str) :=
  match ot with
  | some t => mapCollect typePiece (splitOn ',' t)
  | none => Except.ok []

/-- Body of `parse` after the newline removal. -/
def parseFlat (flat : Str) : Except String CaseClass :=
  match mainMatch flat with
  | none => Except.error ("Could not get capture groups for case class")
  | some (cname, otypes, fstr) =>
    match parseTypes otypes with
    | Except.error e => Except.error e
    | Except.ok tps =>
      match mapCollect fieldPiece (splitOn ',' fstr) with
      | Except.error e => Except.error e
      | Except.ok fs => Except.ok ⟨cname, tps, fs⟩

/-- Rust `parse`: remove newlines, then run the matching pipeline. -/
def parse (input : Str) : Except String CaseClass :=
  parseFlat (removeNewlines input)

/-! ### The heck 0.3 snake-case conversion

`use heck::SnakeCase` resolves to heck 0.3, whose `to_snake_case` runs a
word-segmentation loop (`transform` in heck 0.3.1's `lib.rs`) over each
unicode word and joins the resulting segments with `_`, lowercasing them.
`heckLoop` transcribes that loop: `cur` is the pending slice
`word[init..]` gathered so far, `mode` is heck's `WordMode`, and `acc` the
segments already emitted. -/

inductive WordMode where
  | boundary
  | lowercase
  | uppercase
deriving DecidableEq, Repr

/-- heck's `next_mode`: the mode including the current character, assuming
no word boundary at it. -/
def nextModeOf (c : Char) (mode : WordMode) : WordMode :=
  if c.isLower then WordMode.lowercase
  else if c.isUpper then WordMode.uppercase
  else mode

def heckLoop : Str → Str → WordMode → List Str → List Str
  | [], _, _, acc => acc
  | [c], cur, mode, acc =>
    -- last character: an underscore is skipped and the loop ends without
    -- emitting; otherwise the pending slice plus `c` is emitted
    if c = '_' then acc else acc ++ [cur ++ [c]]
  | c :: next :: r2, cur, mode, acc =>
    if c = '_' then
      -- `if init == i { init += 1 }; continue`: dropped at slice start,
      -- otherwise the underscore stays inside the pending slice
      heckLoop (next :: r2) (if cur.isEmpty then cur else cur ++ [c]) mode acc
    else if next = '_' ∨ (nextModeOf c mode = WordMode.lowercase ∧ next.isUpper = true) then
      heckLoop (next :: r2) [] WordMode.boundary (acc ++ [cur ++ [c]])
    else if mode = WordMode.uppercase ∧ c.isUpper = true ∧ next.isLower = true then
      heckLoop (next :: r2) [c] WordMode.boundary (acc ++ [cur])
    else
      heckLoop (next :: r2) (cur ++ [c]) (nextModeOf c mode) acc

def heckWord (w : Str) : List Str := heckLoop w [] WordMode.boundary []

/-- `unicode_words` specialised to inputs made of `\w` characters (the only
field names the parser can produce): such a string is a single unicode word
when it contains an alphanumeric character, and contains no word otherwise. -/
def unicodeWords (s : Str) : List Str :=
  if s.any Char.isAlphanum then [s] else []

/-- heck 0.3 `to_snake_case`: lowercased segments joined by `_`. -/
def to_snake_case (s : Str) : Str :=
  List.intercalate ['_']
    ((((unicodeWords s).map heckWord).flatten).map (fun seg => seg.map Char.toLower))

/-! ### The generator (`CaseClass::companion_object`) -/

def is_generic (c : CaseClass) : Bool := !c.type_params.isEmpty

def joinComma (l : List Str) : Str := List.intercalate ((", ").toList) l

def companion_object (c : CaseClass) : Str :=
  let transformed_field_names :=
    joinComma (c.fields.map (fun s => '"' :: to_snake_case s ++ ['"']))
  let tuple :=
    ("a => (").toList ++ joinComma (c.fields.map (fun s => ("a.").toList ++ s)) ++ [')']
  let val_or_def := if is_generic c then ("def").toList else ("lazy val").toList
  let function_type_params := fun (bound : Str) =>
    if is_generic c then
      '[' :: joinComma (c.type_params.map (fun t => t ++ (": ").toList ++ bound)) ++ [']']
    else []
  let just_type_params :=
    if is_generic c then '[' :: joinComma c.type_params ++ [']'] else []
  let full_classname :=
    if is_generic c then c.name ++ just_type_params else c.name
  ("object ").toList ++ c.name ++ (" \x7b\n  implicit ").toList ++ val_or_def
    ++ (" encoder").toList ++ function_type_params (("Encoder").toList)
    ++ (": Encoder[").toList ++ full_classname
    ++ ("] = Encoder.forProduct").toList ++ (Nat.repr c.fields.length).toList
    ++ ['('] ++ transformed_field_names ++ (")(").toList ++ tuple
    ++ (")\n\n  implicit ").toList ++ val_or_def
    ++ (" decoder").toList ++ function_type_params (("Decoder").toList)
    ++ (": Decoder[").toList ++ full_classname
    ++ ("] = Decoder.forProduct").toList ++ (Nat.repr c.fields.length).toList
    ++ ['('] ++ transformed_field_names ++ (")(").toList ++ c.name
    ++ (".apply").toList ++ just_type_params ++ (")\n\x7d").toList

/-! ### Specification-side definitions

These follow the spec's and the claims' wording, and are compared with the
source-derived definitions above by the claim theorems. -/

/-- Quoted snake-case labels, comma-joined in field order (spec §4.2). -/
def quotedLabels (fields : List Str) : Str :=
  joinComma (fields.map (fun f => '"' :: to_snake_case f ++ ['"']))

/-- Tuple projections `a.<field>` using the original field names, in field
order (spec §4.2). -/
def tupleProjections (fields : List Str) : Str :=
  joinComma (fields.map (fun f => ("a.").toList ++ f))

def bindingKind (d : CaseClass) : Str :=
  if d.type_params = [] then ("lazy val").toList else ("def").toList

def encoderBrackets (d : CaseClass) : Str :=
  if d.type_params = [] then []
  else '[' :: joinComma (d.type_params.map (fun t => t ++ (": Encoder").toList)) ++ [']']

def decoderBrackets (d : CaseClass) : Str :=
  if d.type_params = [] then []
  else '[' :: joinComma (d.type_params.map (fun t => t ++ (": Decoder").toList)) ++ [']']

def typeArgs (d : CaseClass) : Str :=
  if d.type_params = [] then [] else '[' :: joinComma d.type_params ++ [']']

/-- The output template as the spec states it (§4.2), with the field count,
the labels, and the projections spelled out. -/
def renderedOutput (d : CaseClass) : Str :=
  ("object ").toList ++ d.name ++ (" \x7b\n  implicit ").toList ++ bindingKind d
    ++ (" encoder").toList ++ encoderBrackets d
    ++ (": Encoder[").toList ++ d.name ++ typeArgs d
    ++ ("] = Encoder.forProduct").toList ++ (Nat.repr d.fields.length).toList
    ++ ['('] ++ quotedLabels d.fields ++ (")(a => (").toList
    ++ tupleProjections d.fields
    ++ ("))\n\n  implicit ").toList ++ bindingKind d
    ++ (" decoder").toList ++ decoderBrackets d
    ++ (": Decoder[").toList ++ d.name ++ typeArgs d
    ++ ("] = Decoder.forProduct").toList ++ (Nat.repr d.fields.length).toList
    ++ ['('] ++ quotedLabels d.fields ++ (")(").toList ++ d.name
    ++ (".apply").toList ++ typeArgs d ++ (")\n\x7d").toList

/-- The non-generic branch of the output, spelled out: `lazy val` bindings,
no bracketed type-parameter lists, bare `<Name>.apply` in the decoder. -/
def nonGenericOutput (d : CaseClass) : Str :=
  ("object ").toList ++ d.name
    ++ (" \x7b\n  implicit lazy val encoder: Encoder[").toList ++ d.name
    ++ ("] = Encoder.forProduct").toList ++ (Nat.repr d.fields.length).toList
    ++ ['('] ++ quotedLabels d.fields ++ (")(a => (").toList
    ++ tupleProjections d.fields
    ++ ("))\n\n  implicit lazy val decoder: Decoder[").toList ++ d.name
    ++ ("] = Decoder.forProduct").toList ++ (Nat.repr d.fields.length).toList
    ++ ['('] ++ quotedLabels d.fields ++ (")(").toList ++ d.name
    ++ (".apply)\n\x7d").toList

/-- The generic branch of the output, spelled out: `def` bindings, every
type parameter bound by `: Encoder` resp. `: Decoder`, and the decoder's
constructor reference instantiated with the type-parameter list. -/
def genericOutput (d : CaseClass) : Str :=
  ("object ").toList ++ d.name
    ++ (" \x7b\n  implicit def encoder[").toList
    ++ joinComma (d.type_params.map (fun t => t ++ (": Encoder").toList))
    ++ ("]: Encoder[").toList ++ d.name ++ ['[']
    ++ joinComma d.type_params
    ++ ("]] = Encoder.forProduct").toList ++ (Nat.repr d.fields.length).toList
    ++ ['('] ++ quotedLabels d.fields ++ (")(a => (").toList
    ++ tupleProjections d.fields
    ++ ("))\n\n  implicit def decoder[").toList
    ++ joinComma (d.type_params.map (fun t => t ++ (": Decoder").toList))
    ++ ("]: Decoder[").toList ++ d.name ++ ['[']
    ++ joinComma d.type_params
    ++ ("]] = Decoder.forProduct").toList ++ (Nat.repr d.fields.length).toList
    ++ ['('] ++ quotedLabels d.fields ++ (")(").toList ++ d.name
    ++ (".apply[").toList ++ joinComma d.type_params ++ ("])\n\x7d").toList

/-- The reference camelCase-to-snake_case transform stated by the spec and
claim C4: an underscore before each uppercase letter that follows a
lowercase letter or digit, then lowercase everything. -/
def specSnakeAux : Char → Str → Str
  | _, [] => []
  | prev, c :: rest =>
    if c.isUpper = true ∧ (prev.isLower = true ∨ prev.isDigit = true) then
      '_' :: c.toLower :: specSnakeAux c rest
    else
      c.toLower :: specSnakeAux c rest

def specSnakeCase : Str → Str
  | [] => []
  | c :: rest => c.toLower :: specSnakeAux c rest

/-- Segmentation induced by the reference transform: a new segment starts
before each uppercase letter that follows a lowercase letter or digit. -/
def specSegs : Char → Str → Str → List Str
  | c, [], cur => [cur ++ [c]]
  | c, next :: rest, cur =>
    if next.isUpper = true ∧ (c.isLower = true ∨ c.isDigit = true) then
      (cur ++ [c]) :: specSegs next rest []
    else
      specSegs next rest (cur ++ [c])

/-- Field names on which claim C4's reference transform is checked against
heck: ASCII alphanumeric, and every uppercase letter is followed by a
lowercase letter or ends the name. -/
def goodTail : Str → Bool
  | [] => true
  | [c] => c.isAlphanum
  | c :: next :: rest =>
    c.isAlphanum && (!c.isUpper || next.isLower) && goodTail (next :: rest)

def goodName : Str → Bool
  | [] => true
  | c :: rest => c.isAlpha && goodTail (c :: rest)

/-! ### Helper lemmas -/

theorem upper_not_lower (c : Char) (h : c.isUpper = true) : c.isLower = false := by
  simp [Char.isUpper, Char.isLower, UInt32.le_def, BitVec.le_def] at *; omega

theorem upper_not_digit (c : Char) (h : c.isUpper = true) : c.isDigit = false := by
  simp [Char.isUpper, Char.isDigit, UInt32.le_def, BitVec.le_def] at *; omega

theorem lower_not_digit (c : Char) (h : c.isLower = true) : c.isDigit = false := by
  simp [Char.isLower, Char.isDigit, UInt32.le_def, BitVec.le_def] at *; omega

theorem alnum_cases (c : Char) (h : c.isAlphanum = true) :
    c.isLower = true ∨ c.isUpper = true ∨ c.isDigit = true := by
  simp [Char.isAlphanum, Char.isAlpha] at h
  rcases h with (h | h) | h
  · exact Or.inr (Or.inl h)
  · exact Or.inl h
  · exact Or.inr (Or.inr h)

theorem alnum_ne_underscore (c : Char) (h : c.isAlphanum = true) : ¬ (c = '_') := by
  intro e; subst e; simp at h

theorem alpha_not_digit (c : Char) (h : c.isAlpha = true) : c.isDigit = false := by
  simp [Char.isAlpha] at h
  rcases h with h | h
  · exact upper_not_digit c h
  · exact lower_not_digit c h

theorem lower_not_upper (c : Char) (h : c.isLower = true) : c.isUpper = false := by
  simp [Char.isUpper, Char.isLower, UInt32.le_def, BitVec.le_def] at *; omega

theorem digit_not_lower (c : Char) (h : c.isDigit = true) : c.isLower = false := by
  simp [Char.isLower, Char.isDigit, UInt32.le_def, BitVec.le_def] at *; omega

theorem digit_not_upper (c : Char) (h : c.isDigit = true) : c.isUpper = false := by
  simp [Char.isUpper, Char.isDigit, UInt32.le_def, BitVec.le_def] at *; omega

theorem goodTail_head (x : Char) (xs : Str) (h : goodTail (x :: xs) = true) :
    x.isAlphanum = true := by
  cases xs with
  | nil => simpa [goodTail] using h
  | cons y ys =>
    simp only [goodTail, Bool.and_eq_true] at h
    exact h.1.1

theorem removeNewlines_idem (s : Str) : removeNewlines (removeNewlines s) = removeNewlines s := by
  induction s with
  | nil => rfl
  | cons c rest ih =>
    by_cases hc : c = '\n'
    · simpa [removeNewlines, hc] using ih
    · simp only [removeNewlines, List.filter_cons] at *
      simp [hc, ih]

theorem removeNewlines_append (a b : Str) :
    removeNewlines (a ++ b) = removeNewlines a ++ removeNewlines b := by
  simp [removeNewlines]

theorem splitOnAux_ne_nil (sep : Char) (s acc : Str) : splitOnAux sep s acc ≠ [] := by
  induction s generalizing acc with
  | nil => simp [splitOnAux]
  | cons c cs ih =>
    by_cases hc : c = sep <;> simp [splitOnAux, hc] <;> exact ih _

theorem splitOn_ne_nil (sep : Char) (s : Str) : splitOn sep s ≠ [] :=
  splitOnAux_ne_nil sep s []

theorem mapCollect_ok_length (f : Str → Except String Str) (l : List Str) (ys : List Str)
    (h : mapCollect f l = Except.ok ys) : ys.length = l.length := by
  induction l generalizing ys with
  | nil => simp [mapCollect] at h; simp [← h]
  | cons x xs ih =>
    simp only [mapCollect] at h
    cases hf : f x with
    | error e => rw [hf] at h; exact absurd h (by simp)
    | ok y =>
      rw [hf] at h
      cases hr : mapCollect f xs with
      | error e => rw [hr] at h; exact absurd h (by simp)
      | ok zs =>
        rw [hr] at h
        cases h
        simp [ih zs hr]

theorem mapCollect_ok_forall (f : Str → Except String Str) (l : List Str) (ys : List Str)
    (h : mapCollect f l = Except.ok ys) : ∀ x ∈ l, ∃ y, f x = Except.ok y := by
  induction l generalizing ys with
  | nil => intro x hx; exact absurd hx (by simp)
  | cons x xs ih =>
    simp only [mapCollect] at h
    cases hf : f x with
    | error e => rw [hf] at h; exact absurd h (by simp)
    | ok y =>
      rw [hf] at h
      cases hr : mapCollect f xs with
      | error e => rw [hr] at h; exact absurd h (by simp)
      | ok zs =>
        intro a ha
        rcases List.mem_cons.mp ha with rfl | ha'
        · exact ⟨y, hf⟩
        · exact ih zs hr a ha'

theorem matchFrom_leads (t : Str) (r : Str × Option Str × Str) (h : matchFrom t = some r) :
    leadsWith litCC t = true := by
  by_cases hl : leadsWith litCC t
  · exact hl
  · simp [matchFrom, hl] at h

theorem mainMatch_none (flat : Str)
    (h : ∀ t ∈ flat.tails, t ≠ [] → matchFrom t = none) : mainMatch flat = none := by
  induction flat with
  | nil => rfl
  | cons c rest ih =>
    have h0 : matchFrom (c :: rest) = none := by
      refine h (c :: rest) ?_ (by simp)
      exact (List.mem_tails _ _).mpr (List.suffix_refl _)
    simp only [mainMatch, h0]
    refine ih (fun t ht hne => h t ?_ hne)
    have hs := (List.mem_tails _ _).mp ht
    exact (List.mem_tails _ _).mpr (hs.trans (List.suffix_cons c rest))

theorem mainMatch_append (a b : Str)
    (h : ∀ t ∈ a.tails, t ≠ [] → matchFrom (t ++ b) = none) :
    mainMatch (a ++ b) = mainMatch b := by
  induction a with
  | nil => rfl
  | cons c rest ih =>
    have h0 : matchFrom ((c :: rest) ++ b) = none := by
      refine h (c :: rest) ?_ (by simp)
      exact (List.mem_tails _ _).mpr (List.suffix_refl _)
    simp only [List.cons_append, mainMatch, List.append_eq] at h0 ⊢
    rw [h0]
    refine ih (fun t ht hne => h t ?_ hne)
    have hs := (List.mem_tails _ _).mp ht
    exact (List.mem_tails _ _).mpr (hs.trans (List.suffix_cons c rest))

theorem parseFlat_congr (f1 f2 : Str) (h : mainMatch f1 = mainMatch f2) :
    parseFlat f1 = parseFlat f2 := by
  unfold parseFlat
  rw [h]

/-- Inversion of a successful parse: every stage must have succeeded. -/
theorem parseFlat_ok_inv (flat : Str) (d : CaseClass)
    (h : parseFlat flat = Except.ok d) :
    ∃ nm ot fs, mainMatch flat = some (nm, ot, fs) ∧
      d.name = nm ∧
      mapCollect fieldPiece (splitOn ',' fs) = Except.ok d.fields ∧
      parseTypes ot = Except.ok d.type_params := by
  unfold parseFlat at h
  split at h
  · exact absurd h (by simp)
  · next cname otypes fstr hm =>
    split at h
    · exact absurd h (by simp)
    · next tps ht =>
      split at h
      · exact absurd h (by simp)
      · next fl hf =>
        simp only [Except.ok.injEq] at h
        subst h
        exact ⟨cname, otypes, fstr, hm, rfl, hf, ht⟩

theorem intercalate_single (sep : Str) (a : Str) : List.intercalate sep [a] = a := by
  simp [List.intercalate]

theorem intercalate_cons2 (sep a b : Str) (l : List Str) :
    List.intercalate sep (a :: b :: l) = a ++ sep ++ List.intercalate sep (b :: l) := by
  simp [List.intercalate, List.intersperse_cons₂]

theorem heckLoop_append (s : Str) : ∀ (cur : Str) (mode : WordMode) (acc : List Str),
    heckLoop s cur mode acc = acc ++ heckLoop s cur mode [] := by
  induction s with
  | nil => intro cur mode acc; simp [heckLoop]
  | cons c rest ih =>
    cases rest with
    | nil =>
      intro cur mode acc
      simp only [heckLoop]
      split_ifs <;> simp
    | cons next r2 =>
      intro cur mode acc
      simp only [heckLoop]
      split_ifs
      all_goals first
        | exact ih _ _ _
        | (rw [ih _ _ (acc ++ [cur ++ [c]]), ih _ _ ([] ++ [cur ++ [c]])]; simp)
        | (rw [ih _ _ (acc ++ [cur]), ih _ _ ([] ++ [cur])]; simp)

theorem nextModeOf_lower (c : Char) (mode : WordMode) (h : c.isLower = true) :
    nextModeOf c mode = WordMode.lowercase := by
  simp [nextModeOf, h]

theorem nextModeOf_upper (c : Char) (mode : WordMode) (h : c.isUpper = true) :
    nextModeOf c mode = WordMode.uppercase := by
  simp [nextModeOf, upper_not_lower c h, h]

theorem nextModeOf_other (c : Char) (mode : WordMode)
    (h1 : c.isLower = false) (h2 : c.isUpper = false) : nextModeOf c mode = mode := by
  simp [nextModeOf, h1, h2]

theorem heckLoop_spec (rest : Str) : ∀ (c : Char) (cur : Str) (mode : WordMode),
    goodTail (c :: rest) = true →
    (c.isDigit = true → mode = WordMode.lowercase) →
    (c.isUpper = true → mode ≠ WordMode.uppercase) →
    heckLoop (c :: rest) cur mode [] = specSegs c rest cur := by
  induction rest with
  | nil =>
    intro c cur mode hg _ _
    have ha : c.isAlphanum = true := goodTail_head c [] hg
    have hne : ¬ (c = '_') := alnum_ne_underscore c ha
    simp only [heckLoop, specSegs, if_neg hne, List.nil_append]
  | cons next rest' ih =>
    intro c cur mode hg hd hu
    simp only [goodTail, Bool.and_eq_true] at hg
    obtain ⟨⟨ha, hul⟩, hg'⟩ := hg
    have hgn : goodTail (next :: rest') = true := hg'
    have hnextal : next.isAlphanum = true := goodTail_head next rest' hgn
    have hne : ¬ (c = '_') := alnum_ne_underscore c ha
    have hnextne : ¬ (next = '_') := alnum_ne_underscore next hnextal
    simp only [heckLoop, if_neg hne, specSegs]
    rcases alnum_cases c ha with hcl | hcu | hcd
    · -- c lowercase: nextMode = lowercase; boundary iff next uppercase
      rw [nextModeOf_lower c mode hcl]
      by_cases hnu : next.isUpper = true
      · rw [if_pos (Or.inr ⟨rfl, hnu⟩), if_pos ⟨hnu, Or.inl hcl⟩, heckLoop_append,
          ih next [] WordMode.boundary hgn
            (fun hdig => absurd hdig (by simp [upper_not_digit next hnu]))
            (fun _ => by simp)]
        simp
      · rw [if_neg (by simp [hnextne, hnu]), if_neg (by simp [lower_not_upper c hcl]),
          if_neg (by simp [hnu]),
          ih next (cur ++ [c]) WordMode.lowercase hgn (fun _ => rfl) (fun _ => by simp)]
    · -- c uppercase: next is lowercase by goodness; no boundary fires
      have hnl : next.isLower = true := by
        rcases (Bool.or_eq_true _ _).mp hul with h' | h'
        · exact absurd hcu (by simpa using h')
        · exact h'
      have hnuf : next.isUpper = false := lower_not_upper next hnl
      rw [nextModeOf_upper c mode hcu]
      rw [if_neg (by simp [hnextne, hnuf]), if_neg (fun hx => hu hcu hx.1),
        if_neg (by simp [hnuf]),
        ih next (cur ++ [c]) WordMode.uppercase hgn
          (fun hdig => absurd hdig (by simp [lower_not_digit next hnl]))
          (fun hup => absurd hup (by simp [hnuf]))]
    · -- c digit: mode is lowercase, so nextMode = lowercase
      have hm : mode = WordMode.lowercase := hd hcd
      subst hm
      have hclf : c.isLower = false := digit_not_lower c hcd
      have hcuf : c.isUpper = false := digit_not_upper c hcd
      rw [nextModeOf_other c WordMode.lowercase hclf hcuf]
      by_cases hnu : next.isUpper = true
      · rw [if_pos (Or.inr ⟨rfl, hnu⟩), if_pos ⟨hnu, Or.inr hcd⟩, heckLoop_append,
          ih next [] WordMode.boundary hgn
            (fun hdig => absurd hdig (by simp [upper_not_digit next hnu]))
            (fun _ => by simp)]
        simp
      · rw [if_neg (by simp [hnextne, hnu]), if_neg (by simp [hcuf]),
          if_neg (by simp [hnu]),
          ih next (cur ++ [c]) WordMode.lowercase hgn (fun _ => rfl) (fun _ => by simp)]

theorem specSegs_ne_nil (rest : Str) : ∀ (c : Char) (cur : Str), specSegs c rest cur ≠ [] := by
  induction rest with
  | nil => intro c cur; simp [specSegs]
  | cons next rest' ih =>
    intro c cur
    simp only [specSegs]
    split_ifs
    · simp
    · exact ih _ _

theorem intercalate_specSegs (rest : Str) : ∀ (c : Char) (cur : Str),
    List.intercalate ['_'] ((specSegs c rest cur).map (fun seg => seg.map Char.toLower)) =
      cur.map Char.toLower ++ c.toLower :: specSnakeAux c rest := by
  induction rest with
  | nil => intro c cur; simp [specSegs, specSnakeAux, intercalate_single]
  | cons next rest' ih =>
    intro c cur
    by_cases hcond : next.isUpper = true ∧ (c.isLower = true ∨ c.isDigit = true)
    · simp only [specSegs, specSnakeAux]
      rw [if_pos hcond, if_pos hcond]
      obtain ⟨a, l, hal⟩ : ∃ a l,
          (specSegs next rest' []).map (fun seg => seg.map Char.toLower) = a :: l := by
        cases hs : specSegs next rest' [] with
        | nil => exact absurd hs (specSegs_ne_nil rest' next [])
        | cons a l => exact ⟨a.map Char.toLower, l.map (fun seg => seg.map Char.toLower), by simp [hs]⟩
      rw [List.map_cons, hal, intercalate_cons2, ← hal, ih]
      simp
    · simp only [specSegs, specSnakeAux]
      rw [if_neg hcond, if_neg hcond, ih]
      simp

/-! ### Claim theorems -/

/-- C1: the rendered output's encoder and decoder lines each call
`forProduct<N>` with `N = d.fields.length`, the quoted label list is the
comma-joined, double-quoted snake-case conversion of the field names in
original order, and the encoder tuple projects `a.<field>` with the original
field names in the same order. -/
theorem c1_field_count_and_order (d : CaseClass) :
    companion_object d = renderedOutput d := by
  obtain ⟨n, tps, fs⟩ := d
  cases tps <;>
    simp only [companion_object, renderedOutput, quotedLabels, tupleProjections,
      bindingKind, encoderBrackets, decoderBrackets, typeArgs, is_generic,
      List.isEmpty_nil, List.isEmpty_cons, Bool.not_true, Bool.not_false,
      if_true, if_false, List.append_assoc] <;>
    simp

/-- The two branch shapes can never coincide: after the shared
`object <Name> {\n  implicit ` prefix one continues with `def`, the other
with `lazy val`. -/
theorem branchTemplates_ne (d : CaseClass) : genericOutput d ≠ nonGenericOutput d := by
  intro h
  simp only [genericOutput, nonGenericOutput, List.append_assoc] at h
  have h2 := List.append_cancel_left h
  have h3 := List.append_cancel_left h2
  simp at h3

/-- C2: `type_params` is empty iff the output is the eager branch
(`lazy val` bindings, no bracket lists, bare `<Name>.apply`), and non-empty
iff it is the parameterized branch (`def` bindings, each type parameter
bound by `: Encoder` resp. `: Decoder`, and `<Name>.apply[<params>]`). -/
theorem c2_generic_branch (d : CaseClass) :
    (d.type_params = [] ↔ companion_object d = nonGenericOutput d) ∧
    (d.type_params ≠ [] ↔ companion_object d = genericOutput d) := by
  have hempty : d.type_params = [] → companion_object d = nonGenericOutput d := by
    obtain ⟨n, tps, fs⟩ := d
    intro h
    have h' : tps = [] := h
    subst h'
    simp only [companion_object, nonGenericOutput, quotedLabels, tupleProjections,
      is_generic, List.isEmpty_nil, Bool.not_true, if_false, List.append_assoc]
    simp
  have hgen : d.type_params ≠ [] → companion_object d = genericOutput d := by
    obtain ⟨n, tps, fs⟩ := d
    intro h
    cases tps with
    | nil => exact absurd rfl h
    | cons t ts =>
      simp only [companion_object, genericOutput, quotedLabels, tupleProjections,
        is_generic, List.isEmpty_cons, Bool.not_false, if_true, List.append_assoc]
      simp
  refine ⟨⟨hempty, ?_⟩, ⟨hgen, ?_⟩⟩
  · intro h
    by_contra he
    exact branchTemplates_ne d ((hgen he).symm.trans h)
  · intro h
    intro he
    exact branchTemplates_ne d (h.symm.trans (hempty he))

/-- Witness for C2 at concrete generic and non-generic declarations. -/
theorem c2_generic_branch_witness :
    companion_object ⟨("Generic").toList, [("A").toList], [("something").toList]⟩ =
      genericOutput ⟨("Generic").toList, [("A").toList], [("something").toList]⟩ ∧
    companion_object ⟨("Person").toList, [], [("age").toList]⟩ =
      nonGenericOutput ⟨("Person").toList, [], [("age").toList]⟩ :=
  ⟨((c2_generic_branch _).2).mp (by simp),
   ((c2_generic_branch _).1).mp rfl⟩

/-- C5: `parse` removes all newline characters before matching, so parsing
an input equals parsing that input with every newline removed. -/
theorem c5_newline_tolerance (s : Str) : parse s = parse (removeNewlines s) := by
  unfold parse
  rw [removeNewlines_idem]

/-- C8: `render` (= `companion_object`) is a total function, and it is
deterministic: equal Declarations yield identical output strings. -/
theorem c8_render_deterministic (d1 d2 : CaseClass) (h : d1 = d2) :
    companion_object d1 = companion_object d2 := by rw [h]

/-- Witness for C8. -/
theorem c8_render_deterministic_witness :
    companion_object ⟨("Person").toList, [], [("age").toList]⟩ =
      companion_object ⟨("Person").toList, [], [("age").toList]⟩ :=
  c8_render_deterministic _ _ rfl

/-- C6: the first failing step aborts the whole parse with an error and no
partial Declaration: an outer-shape mismatch yields the case-class error,
and a successful parse requires every type-parameter piece and every field
piece to have matched; in particular `case class Bad(age Int)` fails with
the malformed-field error. -/
theorem c6_error_propagation :
    parse (("case class Bad(age Int)").toList) =
      Except.error ("Could not get capture groups for field name") ∧
    (∀ s : Str, mainMatch (removeNewlines s) = none →
      parse s = Except.error ("Could not get capture groups for case class")) ∧
    (∀ (s : Str) (d : CaseClass), parse s = Except.ok d →
      ∃ nm ot fs, mainMatch (removeNewlines s) = some (nm, ot, fs) ∧
        (∀ piece ∈ splitOn ',' fs, ∃ f, fieldMatch piece = some f) ∧
        (∀ t, ot = some t → ∀ piece ∈ splitOn ',' t, ∃ ty, typeMatch piece = some ty)) := by
  refine ⟨rfl, ?_, ?_⟩
  · intro s h
    unfold parse parseFlat
    rw [h]
  · intro s d h
    obtain ⟨nm, ot, fs, hm, -, hf, ht⟩ := parseFlat_ok_inv _ _ h
    refine ⟨nm, ot, fs, hm, ?_, ?_⟩
    · intro piece hp
      obtain ⟨y, hy⟩ := mapCollect_ok_forall _ _ _ hf piece hp
      unfold fieldPiece at hy
      cases hfm : fieldMatch piece with
      | none => rw [hfm] at hy; exact absurd hy (by simp)
      | some f => exact ⟨f, rfl⟩
    · intro t hot piece hp
      rw [hot] at ht
      unfold parseTypes at ht
      obtain ⟨y, hy⟩ := mapCollect_ok_forall _ _ _ ht piece hp
      unfold typePiece at hy
      cases htm : typeMatch piece with
      | none => rw [htm] at hy; exact absurd hy (by simp)
      | some ty => exact ⟨ty, rfl⟩

/-- Witness for C6: an input whose outer shape does not match. -/
theorem c6_error_propagation_witness :
    parse (("hello world").toList) =
      Except.error ("Could not get capture groups for case class") :=
  c6_error_propagation.2.1 (("hello world").toList) (by rfl)

/-- C7: every successful parse yields a non-empty fields list. -/
theorem c7_fields_nonempty (s : Str) (d : CaseClass) (h : parse s = Except.ok d) :
    d.fields ≠ [] := by
  obtain ⟨nm, ot, fs, hm, -, hf, -⟩ := parseFlat_ok_inv _ _ h
  have hl := mapCollect_ok_length _ _ _ hf
  intro he
  rw [he] at hl
  cases hsp : splitOn ',' fs with
  | nil => exact splitOn_ne_nil ',' fs hsp
  | cons a l => rw [hsp] at hl; exact absurd hl.symm (by simp)

/-- Witness for C7. -/
theorem c7_fields_nonempty_witness :
    (CaseClass.mk (("Person").toList) [] [("age").toList]).fields ≠ [] :=
  c7_fields_nonempty (("case class Person(age: Int)").toList) _ (by rfl)

/-- If the exact sequence `case class ` occurs nowhere, the main regex
cannot match anywhere. -/
theorem mainMatch_none_of_not_contains (flat : Str)
    (h : containsSeq litCC flat = false) : mainMatch flat = none := by
  unfold containsSeq at h
  simp only [List.any_eq_false] at h
  refine mainMatch_none flat (fun t ht _ => ?_)
  cases hm : matchFrom t with
  | none => rfl
  | some r => exact absurd (matchFrom_leads t r hm) (by simp [h t ht])

/-- C10: the main regex demands the exact bytes `case class ` (single ASCII
spaces); when no candidate position carries them, the parse fails with the
outer-shape error, as the concrete two-space and tab variants show.  (With
two spaces before the class name the literal does occur, but `\w+` cannot
match the space, so the outer shape still fails.) -/
theorem c10_single_spaces :
    (∀ s : Str, containsSeq litCC (removeNewlines s) = false →
      parse s = Except.error ("Could not get capture groups for case class")) ∧
    parse (("case  class Person(age: Int)").toList) =
      Except.error ("Could not get capture groups for case class") ∧
    parse (("case\tclass Person(age: Int)").toList) =
      Except.error ("Could not get capture groups for case class") ∧
    parse (("case class\tPerson(age: Int)").toList) =
      Except.error ("Could not get capture groups for case class") ∧
    parse (("case class  Person(age: Int)").toList) =
      Except.error ("Could not get capture groups for case class") := by
  refine ⟨?_, rfl, rfl, rfl, rfl⟩
  intro s h
  unfold parse parseFlat
  rw [mainMatch_none_of_not_contains _ h]

/-- Witness for C10. -/
theorem c10_single_spaces_witness :
    parse (("object Foo \x7b \x7d").toList) =
      Except.error ("Could not get capture groups for case class") :=
  c10_single_spaces.1 (("object Foo \x7b \x7d").toList) (by rfl)

/-- C9 as stated is false: a prefix that contains no occurrence of
`case class ` can still complete one at the boundary.  `sealed case `
prepended to `class Y(a: Int) case class X(b: Int)` creates an earlier
match, so the parse result changes from `X` to `Y`. -/
theorem c9_counterexample :
    containsSeq litCC (("sealed case ").toList) = false ∧
    parse (("class Y(a: Int) case class X(b: Int)").toList) =
      Except.ok ⟨("X").toList, [], [("b").toList]⟩ ∧
    parse ((("sealed case ").toList) ++ (("class Y(a: Int) case class X(b: Int)").toList)) =
      Except.ok ⟨("Y").toList, [], [("a").toList]⟩ ∧
    CaseClass.mk (("Y").toList) [] [("a").toList] ≠
      CaseClass.mk (("X").toList) [] [("b").toList] :=
  ⟨by decide, by rfl, by rfl, by decide⟩

/-- C9 amended: prepending text inside which no match of the pattern can
begin (in particular, text that neither contains `case class ` nor ends
with a fragment that the original input completes to an earlier match)
preserves the parse result. -/
theorem c9_unanchored_search (p s : Str) (d : CaseClass)
    (hs : parse s = Except.ok d)
    (hp : ∀ t ∈ (removeNewlines p).tails, t ≠ [] →
      matchFrom (t ++ removeNewlines s) = none) :
    parse (p ++ s) = Except.ok d := by
  unfold parse
  rw [removeNewlines_append, parseFlat_congr _ _ (mainMatch_append _ _ hp)]
  exact hs

/-- Witness for the amended C9: a `sealed ` modifier is harmless. -/
theorem c9_unanchored_search_witness :
    parse ((("sealed ").toList) ++ (("case class Person(age: Int)").toList)) =
      Except.ok ⟨("Person").toList, [], [("age").toList]⟩ :=
  c9_unanchored_search _ _ _ (by rfl) (by decide)

/-- C3 as stated is false: type-parameter pieces are not trimmed, so the
conventional space after the comma makes `case class Pair[A, B](x: Int)`
fail to parse. -/
theorem c3_counterexample :
    parse (("case class Pair[A, B](x: Int)").toList) =
      Except.error ("Could not get capture groups for type params") := rfl

/-- C3 amended: the bracketed group is split on commas and each piece is
matched against `^[+-]?(\w+)` with no whitespace trimming: a piece starting
with whitespace always fails, the no-space variant `case class
Pair[A,B](x: Int)` parses to `["A", "B"]`, and variance markers and
trailing bound annotations are stripped. -/
theorem c3_type_param_pieces :
    (∀ (c : Char) (piece : Str), c.isWhitespace = true → typeMatch (c :: piece) = none) ∧
    parse (("case class Pair[A,B](x: Int)").toList) =
      Except.ok ⟨("Pair").toList, [("A").toList, ("B").toList], [("x").toList]⟩ ∧
    typeMatch (("+A: Something").toList) = some (("A").toList) ∧
    typeMatch (("-A").toList) = some (("A").toList) ∧
    typeMatch (("A <: B").toList) = some (("A").toList) := by
  refine ⟨?_, rfl, rfl, rfl, rfl⟩
  intro c piece h
  simp only [Char.isWhitespace, Bool.or_eq_true, decide_eq_true_eq] at h
  have h1 : ¬ (c = '+' ∨ c = '-') := by
    rcases h with ((h | h) | h) | h <;> subst h <;> decide
  have h2 : isWordChar c = false := by
    rcases h with ((h | h) | h) | h <;> subst h <;> decide
  simp [typeMatch, h1, h2, List.takeWhile_cons]

/-- Witness for the amended C3. -/
theorem c3_type_param_pieces_witness : typeMatch (' ' :: ("B").toList) = none :=
  c3_type_param_pieces.1 ' ' (("B").toList) (by decide)

/-- C4 as stated is false: heck's conversion is not the plain
`underscore before uppercase-after-lowercase-or-digit` rule.  On the
acronym-style name `ABc` heck produces `a_bc` (it splits before the last
uppercase letter of an uppercase run that precedes a lowercase letter),
while the claimed reference transform produces `abc`. -/
theorem c4_counterexample :
    to_snake_case (("ABc").toList) ≠ specSnakeCase (("ABc").toList) ∧
    to_snake_case (("ABc").toList) = ("a_bc").toList ∧
    specSnakeCase (("ABc").toList) = ("abc").toList :=
  ⟨by decide, by decide, by decide⟩

/-- C4 amended: for field names made of ASCII letters and digits that start
with a letter and in which every uppercase letter is followed by a
lowercase letter or ends the name, the conversion equals the reference
transform; in general heck additionally splits uppercase runs before a
trailing lowercase letter (acronym handling) and treats underscores as
separators. -/
theorem c4_snake_case (s : Str) (h : goodName s = true) :
    to_snake_case s = specSnakeCase s := by
  cases s with
  | nil => rfl
  | cons c rest =>
    simp only [goodName, Bool.and_eq_true] at h
    obtain ⟨hca, hgt⟩ := h
    have halnum : c.isAlphanum = true := by simp [Char.isAlphanum, hca]
    have hany : (c :: rest).any Char.isAlphanum = true := by simp [halnum]
    unfold to_snake_case unicodeWords
    rw [if_pos hany]
    simp only [List.map_cons, List.map_nil, List.flatten_cons, List.flatten_nil,
      List.append_nil, heckWord]
    rw [heckLoop_spec rest c [] WordMode.boundary hgt
        (fun hdig => absurd hdig (by simp [alpha_not_digit c hca]))
        (fun _ => by simp),
      intercalate_specSegs rest c []]
    simp [specSnakeCase]

/-- Witness for the amended C4. -/
theorem c4_snake_case_witness :
    to_snake_case (("favoriteFood").toList) = specSnakeCase (("favoriteFood").toList) :=
  c4_snake_case _ (by decide)

/-! ### The repository's own test vectors, reproduced by the embedding -/

theorem test_parse_basic :
    parse (("case class Person(age: Int)").toList) =
      Except.ok ⟨("Person").toList, [], [("age").toList]⟩ ∧
    parse (("case class Person(age: Int, favoriteFood: Food)").toList) =
      Except.ok ⟨("Person").toList, [], [("age").toList, ("favoriteFood").toList]⟩ ∧
    parse (("case class Person(age: Int, favoriteFoods: List[Food])").toList) =
      Except.ok ⟨("Person").toList, [], [("age").toList, ("favoriteFoods").toList]⟩ :=
  ⟨rfl, rfl, rfl⟩

theorem test_parse_generic :
    parse (("case class Generic[A](something: List[A])").toList) =
      Except.ok ⟨("Generic").toList, [("A").toList], [("something").toList]⟩ ∧
    parse (("case class Generic[A <: B](something: List[A])").toList) =
      Except.ok ⟨("Generic").toList, [("A").toList], [("something").toList]⟩ ∧
    parse (("case class Generic[A: Something](something: List[A])").toList) =
      Except.ok ⟨("Generic").toList, [("A").toList], [("something").toList]⟩ ∧
    parse (("case class Generic[+A: Something](something: List[A])").toList) =
      Except.ok ⟨("Generic").toList, [("A").toList], [("something").toList]⟩ :=
  ⟨rfl, rfl, rfl, rfl⟩

theorem test_companion_object_basic :
    companion_object ⟨("Person").toList, [], [("age").toList, ("favoriteFood").toList]⟩ =
      ("object Person \x7b\n  implicit lazy val encoder: Encoder[Person] = Encoder.forProduct2(\"age\", \"favorite_food\")(a => (a.age, a.favoriteFood))\n\n  implicit lazy val decoder: Decoder[Person] = Decoder.forProduct2(\"age\", \"favorite_food\")(Person.apply)\n\x7d").toList := by
  set_option maxRecDepth 4096 in decide

theorem test_companion_object_generic :
    companion_object ⟨("Generic").toList, [("A").toList], [("something").toList]⟩ =
      ("object Generic \x7b\n  implicit def encoder[A: Encoder]: Encoder[Generic[A]] = Encoder.forProduct1(\"something\")(a => (a.something))\n\n  implicit def decoder[A: Decoder]: Decoder[Generic[A]] = Decoder.forProduct1(\"something\")(Generic.apply[A])\n\x7d").toList := by
  set_option maxRecDepth 4096 in decide

end Gencodec

